import Mathlib

/-!
# Verification of the genimage-inserter core

Shallow embedding of the core of the `genimage-inserter` Obsidian plugin:

* `src/main.ts` — the marker-based safe-insertion protocol
  (`handleGenerateImage` / `executeGeneration`);
* `src/api/gemini.ts` — the Gemini provider client (`generateImage`,
  `extractImageFromResponse`, capability tables);
* `src/utils/prompt-parser.ts` — the template resolver (`parsePromptFile`,
  frontmatter regex, `parseSimpleYaml`, validation);
* `src/services/image-generator.ts` — the generation orchestrator
  (`ImageGeneratorService.generate`, `saveImage`,
  `getExtensionFromMimeType`, `sanitizeFilename`).

Document contents and other JavaScript strings are modelled as `List Char`;
JavaScript string primitives used by the code (`trim`, `split`, `includes`,
first-occurrence `replace`, the `\s` character class) are given explicit
executable models below.
-/

/-- The JavaScript `\s` character class (also the set trimmed by
`String.prototype.trim`): ASCII whitespace plus the Unicode space
separators, line separators and BOM. -/
def wsJs (c : Char) : Bool :=
  c.val = 9 || c.val = 10 || c.val = 11 || c.val = 12 || c.val = 13 ||
  c.val = 32 || c.val = 0xA0 || c.val = 0x1680 ||
  (0x2000 <= c.val && c.val <= 0x200A) ||
  c.val = 0x2028 || c.val = 0x2029 || c.val = 0x202F || c.val = 0x205F ||
  c.val = 0x3000 || c.val = 0xFEFF

/-- JavaScript `String.prototype.trim`: drop `\s` characters from both ends. -/
def trimJs (l : List Char) : List Char :=
  ((l.dropWhile wsJs).reverse.dropWhile wsJs).reverse

/-- JavaScript `s.split('\n')`. -/
def splitOnNl : List Char → List (List Char)
  | [] => [[]]
  | c :: t =>
    if c = '\n' then [] :: splitOnNl t
    else
      match splitOnNl t with
      | [] => [[c]]
      | l :: ls => (c :: l) :: ls

/-- JavaScript `s.includes(pat)`: substring containment. -/
def includesSub (pat : List Char) : List Char → Bool
  | [] => decide (pat = [])
  | c :: t => pat.isPrefixOf (c :: t) || includesSub pat t

/-- JavaScript `s.replace(pat, repl)` for a string pattern: replace the
first occurrence of `pat` (taken literally) by `repl`; if `pat` does not
occur, the string is returned unchanged. -/
def replaceFirst (pat repl : List Char) : List Char → List Char
  | [] => if pat = [] then repl else []
  | c :: t =>
    if pat.isPrefixOf (c :: t) then repl ++ (c :: t).drop pat.length
    else c :: replaceFirst pat repl t

/-!
## Safe insertion protocol (`src/main.ts`)
-/

/-- The marker text inserted by `handleGenerateImage` (main.ts line 88):
`<!-- genimage-pending-${Date.now()}-${Math.random().toString(36).slice(2, 8)} -->`,
where `ts` is the decimal rendering of `Date.now()` and `rand` the base-36
random fragment. -/
def markerOf (ts rand : List Char) : List Char :=
  ("<!-- genimage-pending-").data ++ ts ++ '-' :: rand ++ (" -->").data

/-- The marker-resolution step of `executeGeneration` (main.ts lines
137–145): the callback passed to `Vault.process`.  If the current content
includes the marker, replace (the first occurrence of) the marker with the
replacement text; otherwise return the content unchanged (the condition is
only logged as a warning). -/
def resolveMarker (marker repl content : List Char) : List Char :=
  if includesSub marker content then replaceFirst marker repl content
  else content

/-!
### Basic lemmas about the string primitives
-/

theorem includesSub_intro {pat s : List Char} (h : pat <:+: s) :
    includesSub pat s = true := by
  induction s with
  | nil =>
    rcases h with ⟨u, v, huv⟩
    have hp : pat = [] := (List.append_eq_nil.mp (List.append_eq_nil.mp huv).1).2
    simp [includesSub, hp]
  | cons c t ih =>
    rcases h with ⟨u, v, huv⟩
    cases u with
    | nil =>
      have hp : pat <+: c :: t := ⟨v, by simpa using huv⟩
      simp [includesSub, List.isPrefixOf_iff_prefix.mpr hp]
    | cons a u' =>
      have ht : pat <:+: t := ⟨u', v, by simpa using congrArg List.tail huv⟩
      simp [includesSub, ih ht]

theorem infix_of_includesSub {pat s : List Char} (h : includesSub pat s = true) :
    pat <:+: s := by
  induction s with
  | nil =>
    simp [includesSub] at h
    simp [h]
  | cons c t ih =>
    simp only [includesSub, Bool.or_eq_true] at h
    rcases h with h | h
    · exact (List.isPrefixOf_iff_prefix.mp h).isInfix
    · exact (ih h).trans (List.suffix_cons c t).isInfix

/-!
### Marker combinatorics

Markers generated by `handleGenerateImage` have the shape
`'<' :: body ++ ['>']` where the body contains neither `'<'` nor `'>'`:
the leading `<` is the only `<` and the trailing `>` is the only `>`.
Occurrences of two such strings in a document can therefore never
overlap unless they are the same string at the same position.
-/

/-- A string shaped like a generated marker: a single leading `<`, a single
trailing `>`, and neither delimiter anywhere in between. -/
def markerShaped (m : List Char) : Prop :=
  ∃ body, m = '<' :: body ++ ['>'] ∧ '<' ∉ body ∧ '>' ∉ body

theorem markerOf_shaped (ts rand : List Char)
    (hts : ∀ c ∈ ts, c ≠ '<' ∧ c ≠ '>') (hrand : ∀ c ∈ rand, c ≠ '<' ∧ c ≠ '>') :
    markerShaped (markerOf ts rand) := by
  refine ⟨("!-- genimage-pending-").data ++ ts ++ '-' :: rand ++ (" --").data, ?_, ?_, ?_⟩
  · show ("<!-- genimage-pending-").data ++ ts ++ '-' :: rand ++ (" -->").data = _
    have h1 : ("<!-- genimage-pending-").data = '<' :: ("!-- genimage-pending-").data := rfl
    have h2 : (" -->").data = (" --").data ++ ['>'] := rfl
    simp [h1, h2]
  · intro hmem
    rcases List.mem_append.mp hmem with h | h
    · rcases List.mem_append.mp h with h | h
      · rcases List.mem_append.mp h with h | h
        · exact absurd h (by decide)
        · exact (hts _ h).1 rfl
      · rcases List.mem_cons.mp h with h | h
        · exact absurd h (by decide)
        · exact (hrand _ h).1 rfl
    · exact absurd h (by decide)
  · intro hmem
    rcases List.mem_append.mp hmem with h | h
    · rcases List.mem_append.mp h with h | h
      · rcases List.mem_append.mp h with h | h
        · exact absurd h (by decide)
        · exact (hts _ h).2 rfl
      · rcases List.mem_cons.mp h with h | h
        · exact absurd h (by decide)
        · exact (hrand _ h).2 rfl
    · exact absurd h (by decide)

/-- A marker-shaped string has no `<` after a nonempty offset: it cannot
start strictly inside another marker-shaped occurrence. -/
theorem marker_no_inner_lt {m w t : List Char} (hm : markerShaped m)
    (hw : w ≠ []) (h : m = w ++ '<' :: t) : False := by
  rcases hm with ⟨pm, hshape, hlt, _⟩
  cases w with
  | nil => exact hw rfl
  | cons cw w' =>
    have h' : '<' :: pm ++ ['>'] = cw :: (w' ++ '<' :: t) := by
      simpa using hshape.symm.trans h
    have htail : pm ++ ['>'] = w' ++ '<' :: t :=
      ((List.cons.injEq '<' (pm ++ ['>']) cw (w' ++ '<' :: t)).mp h').2
    have hmem : '<' ∈ pm ++ ['>'] := htail ▸ (by simp)
    rcases List.mem_append.mp hmem with h1 | h1
    · exact hlt h1
    · simp at h1

/-- If one marker-shaped string is an append-prefix of another, they are
equal (and the residue is empty). -/
theorem marker_prefix_eq {a b w : List Char} (ha : markerShaped a)
    (hb : markerShaped b) (h : a = b ++ w) : a = b ∧ w = [] := by
  rcases ha with ⟨pa, hsa, _, hgta⟩
  rcases hb with ⟨pb, hsb, _, _⟩
  have h' : pa ++ ['>'] = pb ++ ('>' :: w) := by
    have := hsa.symm.trans (h.trans (by rw [hsb]))
    have h2 : '<' :: pa ++ ['>'] = '<' :: (pb ++ ('>' :: w)) := by
      simpa using this
    simpa using h2
  rcases List.append_eq_append_iff.1 h' with ⟨t, hpb, ht⟩ | ⟨t, hpa, ht⟩
  · have hlen : 1 = t.length + (w.length + 1) := by
      simpa [List.length_append] using congrArg List.length ht
    have htnil : t = [] := List.eq_nil_of_length_eq_zero (by omega)
    have hwnil : w = [] := List.eq_nil_of_length_eq_zero (by omega)
    subst hwnil
    constructor
    · rw [hsa, hsb, hpb, htnil]
      simp
    · rfl
  · cases t with
    | nil =>
      have hw : '>' :: w = ['>'] := by simpa using ht
      have hwnil : w = [] := by simpa using hw
      constructor
      · rw [hsa, hsb, hpa]
        simp
      · exact hwnil
    | cons c t' =>
      have hc : '>' :: w = c :: (t' ++ ['>']) := by simpa using ht
      have hcgt : c = '>' := ((List.cons.injEq _ _ _ _).mp hc).1.symm
      exact absurd (hpa ▸ (by simp [hcgt] : '>' ∈ pb ++ c :: t')) hgta

/-- Occurrence splitting: if a document decomposes around an occurrence of a
marker-shaped string `a` and also around an occurrence of a marker-shaped
string `b`, then the `b`-occurrence lies entirely inside the part before
`a`, or entirely inside the part after `a`, or the two occurrences coincide
(same position, same string). -/
theorem marker_occ_split {x y u v a b : List Char}
    (ha : markerShaped a) (hb : markerShaped b)
    (heq : x ++ a ++ y = u ++ b ++ v) :
    (∃ w, x = u ++ b ++ w) ∨ (∃ w, u = x ++ a ++ w) ∨ (x = u ∧ a = b ∧ y = v) := by
  have heq' : x ++ (a ++ y) = u ++ (b ++ v) := by simpa [List.append_assoc] using heq
  rcases List.append_eq_append_iff.1 heq' with ⟨w, hu, hw⟩ | ⟨w, hx, hw⟩
  · -- u = x ++ w : the b-occurrence starts at or after the a-occurrence
    rcases List.append_eq_append_iff.1 hw with ⟨w2, hw2, hy⟩ | ⟨w2, ha2, hbv⟩
    · -- w = a ++ w2 : b starts at or after the end of a
      refine Or.inr (Or.inl ⟨w2, ?_⟩)
      rw [hu, hw2, List.append_assoc]
    · -- a = w ++ w2, b ++ v = w2 ++ y
      cases w with
      | nil =>
        -- b and a start at the same position
        have ha2' : a = w2 := by simpa using ha2
        have hbv' : b ++ v = a ++ y := by rw [ha2']; exact hbv
        rcases List.append_eq_append_iff.1 hbv' with ⟨w3, ha3, hv⟩ | ⟨w3, hb3, hy3⟩
        · rcases marker_prefix_eq ha hb ha3 with ⟨hab, hw3⟩
          subst hw3
          refine Or.inr (Or.inr ⟨by simpa using hu.symm, hab, by simpa using hv.symm⟩)
        · rcases marker_prefix_eq hb ha hb3 with ⟨hab, hw3⟩
          subst hw3
          refine Or.inr (Or.inr ⟨by simpa using hu.symm, hab.symm, by simpa using hy3⟩)
      | cons cw w' =>
        cases w2 with
        | nil =>
          -- b starts exactly at the end of a
          have hwa : a = cw :: w' := by simpa using ha2
          refine Or.inr (Or.inl ⟨[], ?_⟩)
          rw [hu, hwa]
          simp
        | cons c2 t2 =>
          -- b starts strictly inside a : impossible
          exfalso
          rcases hb with ⟨pb, hsb, _, _⟩
          have hc2 : c2 = '<' := by
            have h0 : '<' :: (pb ++ ['>'] ++ v) = c2 :: (t2 ++ y) := by
              simpa [hsb, List.append_assoc] using hbv
            exact (((List.cons.injEq _ _ _ _).mp h0).1).symm
          exact marker_no_inner_lt (w := cw :: w') (t := t2) ha (by simp)
            (by rw [ha2, hc2])
  · -- x = u ++ w : the b-occurrence starts at or before the a-occurrence
    rcases List.append_eq_append_iff.1 hw.symm with ⟨w2, hb2, hay⟩ | ⟨w2, hw2, hv⟩
    · -- b = w ++ w2, a ++ y = w2 ++ v
      cases w with
      | nil =>
        have hb2' : b = w2 := by simpa using hb2
        have hay' : a ++ y = b ++ v := by rw [hb2']; exact hay
        rcases List.append_eq_append_iff.1 hay' with ⟨w3, hb3, hy3⟩ | ⟨w3, ha3, hv3⟩
        · -- b = a ++ w3
          rcases marker_prefix_eq hb ha hb3 with ⟨hab, hw3⟩
          subst hw3
          refine Or.inr (Or.inr ⟨by simpa using hx, hab.symm, by simpa using hy3⟩)
        · -- a = b ++ w3
          rcases marker_prefix_eq ha hb ha3 with ⟨hab, hw3⟩
          subst hw3
          refine Or.inr (Or.inr ⟨by simpa using hx, hab, by simpa using hv3.symm⟩)
      | cons cw w' =>
        cases w2 with
        | nil =>
          -- a starts exactly at the end of b
          have hwb : b = cw :: w' := by simpa using hb2
          refine Or.inl ⟨[], ?_⟩
          rw [hx, hwb]
          simp
        | cons c2 t2 =>
          -- a starts strictly inside b : impossible
          exfalso
          rcases ha with ⟨pa, hsa, _, _⟩
          have hc2 : c2 = '<' := by
            have h0 : '<' :: (pa ++ ['>'] ++ y) = c2 :: (t2 ++ v) := by
              simpa [hsa, List.append_assoc] using hay
            exact (((List.cons.injEq _ _ _ _).mp h0).1).symm
          exact marker_no_inner_lt (w := cw :: w') (t := t2) hb (by simp)
            (by rw [hb2, hc2])
    · -- w = b ++ w2 : b ends at or before the start of a
      refine Or.inl ⟨w2, ?_⟩
      rw [hx, hw2, List.append_assoc]

/-- `replaceFirst` on a document split at the first occurrence of the
pattern rewrites exactly that occurrence. -/
theorem replaceFirst_append (pat repl x y : List Char) (hpat : pat ≠ [])
    (hfirst : ∀ u v : List Char, x ++ pat ++ y = u ++ pat ++ v → x.length ≤ u.length) :
    replaceFirst pat repl (x ++ pat ++ y) = x ++ repl ++ y := by
  induction x with
  | nil =>
    cases pat with
    | nil => exact absurd rfl hpat
    | cons p ps =>
      show replaceFirst (p :: ps) repl (([] ++ (p :: ps)) ++ y) = ([] ++ repl) ++ y
      have hpre : (p :: ps).isPrefixOf (p :: (ps ++ y)) = true :=
        List.isPrefixOf_iff_prefix.mpr ⟨y, by simp⟩
      simp only [List.nil_append, List.cons_append, replaceFirst, hpre, if_pos]
      have hdrop : (ps ++ y).drop ps.length = y := List.drop_left ps y
      simp [hdrop]
  | cons c x' ih =>
    have hnp : pat.isPrefixOf (c :: (x' ++ pat ++ y)) = false := by
      cases hval : pat.isPrefixOf (c :: (x' ++ pat ++ y)) with
      | false => rfl
      | true =>
        exfalso
        rcases List.isPrefixOf_iff_prefix.mp hval with ⟨t, ht⟩
        have hdec : (c :: x') ++ pat ++ y = [] ++ pat ++ t := by
          simp only [List.nil_append]
          rw [ht]
          simp [List.append_assoc]
        have hle := hfirst [] t hdec
        simp at hle
    show replaceFirst pat repl (c :: (x' ++ pat ++ y)) = c :: (x' ++ repl ++ y)
    simp only [replaceFirst]
    rw [if_neg (by rw [hnp]; simp)]
    congr 1
    exact ih (fun u v huv => by
      have h2 := hfirst (c :: u) v (by
        simp only [List.cons_append, List.append_assoc] at huv ⊢
        rw [huv])
      simpa using h2)

theorem markerShaped_ne_nil {a : List Char} (ha : markerShaped a) : a ≠ [] := by
  rcases ha with ⟨body, hshape, _, _⟩
  simp [hshape]

/-- For a marker-shaped pattern, an occurrence whose left part does not
contain the pattern is the first occurrence. -/
theorem marker_first_occ {x y u v a : List Char} (ha : markerShaped a)
    (hx : includesSub a x = false) (heq : x ++ a ++ y = u ++ a ++ v) :
    x.length ≤ u.length := by
  rcases marker_occ_split ha ha heq with ⟨w, hxw⟩ | ⟨w, huw⟩ | ⟨hxu, _, _⟩
  · exfalso
    have hinf : a <:+: x := ⟨u, w, hxw.symm⟩
    rw [includesSub_intro hinf] at hx
    exact Bool.true_eq_false_eq_False hx
  · rw [huw]
    simp [List.length_append]
  · exact le_of_eq (congrArg List.length hxu)

/-- The resolution step of one invocation, applied to a document split at
(the first occurrence of) its own marker, rewrites exactly that marker. -/
theorem resolveMarker_at_first_occurrence {a x y repl : List Char}
    (ha : markerShaped a) (hfirstA : includesSub a x = false) :
    resolveMarker a repl (x ++ a ++ y) = x ++ repl ++ y := by
  have hin : includesSub a (x ++ a ++ y) = true :=
    includesSub_intro ⟨x, y, rfl⟩
  unfold resolveMarker
  rw [hin]
  simp only [if_pos]
  exact replaceFirst_append a repl x y (markerShaped_ne_nil ha)
    (fun u v huv => marker_first_occ ha hfirstA huv)

/-- A different marker-shaped string occurring in the document occurs inside
the untouched part, hence survives the substitution. -/
theorem other_marker_preserved {a b x y repl : List Char}
    (ha : markerShaped a) (hb : markerShaped b) (hne : b ≠ a)
    (hB : includesSub b (x ++ a ++ y) = true) :
    includesSub b (x ++ repl ++ y) = true := by
  rcases infix_of_includesSub hB with ⟨u, v, huv⟩
  rcases marker_occ_split hb ha huv with ⟨w, huw⟩ | ⟨w, hxw⟩ | ⟨_, hba, _⟩
  · -- the b-occurrence lies inside y
    have hy : y = w ++ b ++ v := by
      have h1 : x ++ (a ++ (w ++ (b ++ v))) = x ++ (a ++ y) := by
        have := huv
        rw [huw] at this
        simpa [List.append_assoc] using this
      have h2 := List.append_cancel_left h1
      have h3 := List.append_cancel_left h2
      simpa [List.append_assoc] using h3.symm
    have hinf : b <:+: x ++ repl ++ y := by
      have hby : b <:+: y := ⟨w, v, by rw [hy]⟩
      exact hby.trans (List.suffix_append (x ++ repl) y).isInfix
    exact includesSub_intro hinf
  · -- the b-occurrence lies inside x
    have hinf : b <:+: x ++ repl ++ y := by
      have hbx : b <:+: x := ⟨u, w, hxw.symm⟩
      have hxp : x <+: x ++ repl ++ y := by
        rw [List.append_assoc]
        exact List.prefix_append x (repl ++ y)
      exact hbx.trans hxp.isInfix
    exact includesSub_intro hinf
  · exact absurd hba hne

/-- C1: Marker resolution is token-keyed and leaves unrelated content
intact: for every document content containing two distinct generated marker
tokens (split as `x ++ A ++ y` around the first occurrence of `A`, with the
distinct token `B` also present), resolving `A` replaces only the `A`
occurrence — the result is exactly `x ++ repl ++ y` — and the `B`
occurrence (and all other content) survives, so one invocation's result
never replaces another invocation's marker. -/
theorem C1_marker_token_isolation
    (tsA randA tsB randB x y repl : List Char)
    (htsA : ∀ c ∈ tsA, c ≠ '<' ∧ c ≠ '>') (hrandA : ∀ c ∈ randA, c ≠ '<' ∧ c ≠ '>')
    (htsB : ∀ c ∈ tsB, c ≠ '<' ∧ c ≠ '>') (hrandB : ∀ c ∈ randB, c ≠ '<' ∧ c ≠ '>')
    (hne : markerOf tsB randB ≠ markerOf tsA randA)
    (hfirstA : includesSub (markerOf tsA randA) x = false)
    (hB : includesSub (markerOf tsB randB) (x ++ markerOf tsA randA ++ y) = true) :
    resolveMarker (markerOf tsA randA) repl (x ++ markerOf tsA randA ++ y)
      = x ++ repl ++ y
    ∧ includesSub (markerOf tsB randB) (x ++ repl ++ y) = true := by
  have hA := markerOf_shaped tsA randA htsA hrandA
  have hBsh := markerOf_shaped tsB randB htsB hrandB
  exact ⟨resolveMarker_at_first_occurrence hA hfirstA,
    other_marker_preserved hA hBsh hne hB⟩

/-- Witness for C1: a concrete document holding two distinct markers; the
resolution of the first replaces exactly it and keeps the second. -/
theorem C1_marker_token_isolation_witness :
    resolveMarker (markerOf ("100").data ("aa").data) ("IMG").data
        (("doc ").data ++ markerOf ("100").data ("aa").data ++
          ((" mid ").data ++ markerOf ("100").data ("bb").data))
      = ("doc ").data ++ ("IMG").data ++
          ((" mid ").data ++ markerOf ("100").data ("bb").data)
    ∧ includesSub (markerOf ("100").data ("bb").data)
        (("doc ").data ++ ("IMG").data ++
          ((" mid ").data ++ markerOf ("100").data ("bb").data)) = true :=
  C1_marker_token_isolation ("100").data ("aa").data ("100").data ("bb").data
    ("doc ").data ((" mid ").data ++ markerOf ("100").data ("bb").data) ("IMG").data
    (by decide) (by decide) (by decide) (by decide) (by decide) (by decide) (by decide)

/-- C2: if the marker token is absent from the document at resolution
time, the resolution step performs no mutation: the content is returned
unchanged (the function is total, so no error reaches the caller; the code
only logs a warning in this branch). -/
theorem C2_marker_absent_no_mutation (marker repl content : List Char)
    (h : includesSub marker content = false) :
    resolveMarker marker repl content = content := by
  simp [resolveMarker, h]

/-- Witness for C2: a concrete document that does not contain the marker
is returned unchanged. -/
theorem C2_marker_absent_no_mutation_witness :
    includesSub (markerOf ("100").data ("aa").data) ("hello world").data = false
    ∧ resolveMarker (markerOf ("100").data ("aa").data) ("IMG").data
        ("hello world").data = ("hello world").data :=
  ⟨by decide,
    C2_marker_absent_no_mutation (markerOf ("100").data ("aa").data)
      ("IMG").data ("hello world").data (by decide)⟩

/-!
## Provider client (`src/api/gemini.ts`)
-/

/-- Result of one generation (`types.ts`): base64 payload and MIME type. -/
structure GeneratedImage where
  data : String
  mimeType : String
deriving DecidableEq

/-- `inlineData` of a response part. -/
structure GeminiInlineData where
  mimeType : String
  data : String
deriving DecidableEq

/-- One part of a response candidate: optional text, optional inline data. -/
structure GeminiPart where
  text : Option String := none
  inlineData : Option GeminiInlineData := none
deriving DecidableEq

/-- `content` of a response candidate. -/
structure GeminiContent where
  parts : Option (List GeminiPart) := none
deriving DecidableEq

/-- One response candidate. -/
structure GeminiCandidate where
  content : Option GeminiContent := none
deriving DecidableEq

/-- Top-level error object of a response. -/
structure GeminiError where
  code : Int
  message : String
  status : String
deriving DecidableEq

/-- Response structure from the Gemini API (gemini.ts lines 37–55). -/
structure GeminiResponse where
  candidates : Option (List GeminiCandidate) := none
  error : Option GeminiError := none
deriving DecidableEq

/-- Models that support full imageConfig (gemini.ts lines 26–30). -/
def MODELS_WITH_FULL_IMAGE_CONFIG : List String :=
  ["gemini-3-pro-image-preview", "gemini-3-pro-image"]

/-- Models that support aspectRatio only (gemini.ts lines 32–35). -/
def MODELS_WITH_ASPECT_RATIO_ONLY : List String :=
  ["gemini-2.5-flash-image"]

/-- JavaScript `model.includes(m)` on `String`s. -/
def strIncludes (s pat : String) : Bool :=
  includesSub pat.data s.data

/-- The optional `imageConfig` block of the request body, with the
optional `imageSize` key. -/
structure ImageConfig where
  aspectRatio : String
  imageSize : Option String := none
deriving DecidableEq

/-- The imageConfig construction of `generateImage` (gemini.ts lines
86–102): full-config models (matched by substring) get both parameters;
aspect-ratio-only models get only the aspect ratio; all other models get
no imageConfig block (`none`). -/
def buildImageConfig (model aspectRatio imageSize : String) : Option ImageConfig :=
  let supportsFullImageConfig :=
    MODELS_WITH_FULL_IMAGE_CONFIG.any (fun m => strIncludes model m)
  let supportsAspectRatioOnly :=
    MODELS_WITH_ASPECT_RATIO_ONLY.any (fun m => strIncludes model m)
  if supportsFullImageConfig then
    some { aspectRatio := aspectRatio, imageSize := some imageSize }
  else if supportsAspectRatioOnly then
    some { aspectRatio := aspectRatio, imageSize := none }
  else none

/-- The part scan of `extractImageFromResponse` (gemini.ts lines 188–196):
return the first part carrying inline image data. -/
def findInlineData : List GeminiPart → Option GeneratedImage
  | [] => none
  | part :: rest =>
    match part.inlineData with
    | some d => some { data := d.data, mimeType := d.mimeType }
    | none => findInlineData rest

/-- `extractImageFromResponse` (gemini.ts lines 172–199). -/
def extractImageFromResponse (response : GeminiResponse) : Option GeneratedImage :=
  match response.candidates with
  | none => none
  | some [] => none
  | some (firstCandidate :: _) =>
    match firstCandidate.content with
    | none => none
    | some content =>
      match content.parts with
      | none => none
      | some parts => findInlineData parts

/-- The response handling of `generateImage` (gemini.ts lines 134–158):
a top-level error object fails with `Gemini API error: <message>`;
otherwise the extracted image is returned, or extraction failure gives the
"No image was generated" error. -/
def generateImageOutcome (data : GeminiResponse) : Except String GeneratedImage :=
  match data.error with
  | some e => .error ("Gemini API error: " ++ e.message)
  | none =>
    match extractImageFromResponse data with
    | some image => .ok image
    | none => .error "No image was generated. The API may have returned text only."

/-!
### Claims about the provider client
-/

/-- C3 counterexample: for the provider error message `"Invalid request"`
the failure message of the code is `"Gemini API error: Invalid request"`,
which is not the provider's message verbatim — the code prefixes
`"Gemini API error: "` (and its own test expects that prefix). -/
theorem C3_message_not_verbatim :
    generateImageOutcome
        { candidates := none,
          error := some { code := 400, message := "Invalid request",
                          status := "INVALID_ARGUMENT" } }
      = .error "Gemini API error: Invalid request"
    ∧ ("Gemini API error: Invalid request" : String) ≠ "Invalid request" :=
  ⟨rfl, by decide⟩

/-- C3 (amended): for every response carrying a top-level error object,
`generateImage` fails with a message equal to `"Gemini API error: "`
followed by the provider's message, for any provider message. -/
theorem C3_error_message_prefixed (r : GeminiResponse) (e : GeminiError)
    (h : r.error = some e) :
    generateImageOutcome r = .error ("Gemini API error: " ++ e.message) := by
  unfold generateImageOutcome
  rw [h]

/-- Witness for the amended C3. -/
theorem C3_error_message_prefixed_witness :
    generateImageOutcome
        { candidates := none,
          error := some { code := 429, message := "Quota exceeded",
                          status := "RESOURCE_EXHAUSTED" } }
      = .error ("Gemini API error: " ++ "Quota exceeded") :=
  C3_error_message_prefixed _ _ rfl

/-- C4: the imageConfig block depends only on the model's capability
class: `gemini-2.5-flash-image` with `21:9`/`4K` yields exactly
`{aspectRatio := "21:9"}` with no size key; `gemini-3-pro-image-preview`
with the same inputs yields `{aspectRatio := "21:9", imageSize := "4K"}`;
any model matching neither capability list gets no imageConfig at all. -/
theorem C4_image_config_by_capability :
    buildImageConfig "gemini-2.5-flash-image" "21:9" "4K"
      = some { aspectRatio := "21:9", imageSize := none }
    ∧ buildImageConfig "gemini-3-pro-image-preview" "21:9" "4K"
      = some { aspectRatio := "21:9", imageSize := some "4K" }
    ∧ ∀ model ar sz : String,
        (∀ m ∈ MODELS_WITH_FULL_IMAGE_CONFIG, strIncludes model m = false) →
        (∀ m ∈ MODELS_WITH_ASPECT_RATIO_ONLY, strIncludes model m = false) →
        buildImageConfig model ar sz = none := by
  refine ⟨by decide, by decide, ?_⟩
  intro model ar sz hfull haro
  have h1 : MODELS_WITH_FULL_IMAGE_CONFIG.any (fun m => strIncludes model m) = false := by
    rw [List.any_eq_false]
    intro m hm
    simp [hfull m hm]
  have h2 : MODELS_WITH_ASPECT_RATIO_ONLY.any (fun m => strIncludes model m) = false := by
    rw [List.any_eq_false]
    intro m hm
    simp [haro m hm]
  simp [buildImageConfig, h1, h2]

/-- Witness for C4 at a model recognized by neither capability list. -/
theorem C4_image_config_by_capability_witness :
    buildImageConfig "dall-e-3" "21:9" "4K" = none :=
  C4_image_config_by_capability.2.2 "dall-e-3" "21:9" "4K"
    (by decide) (by decide)

theorem findInlineData_append (suf : List GeminiPart) {pre : List GeminiPart}
    {p : GeminiPart} {d : GeminiInlineData}
    (hpre : ∀ q ∈ pre, q.inlineData = none) (hp : p.inlineData = some d) :
    findInlineData (pre ++ p :: suf)
      = some { data := d.data, mimeType := d.mimeType } := by
  induction pre with
  | nil => simp [findInlineData, hp]
  | cons q qs ih =>
    have hq : q.inlineData = none := hpre q (by simp)
    simp only [List.cons_append, findInlineData, hq]
    exact ih (fun r hr => hpre r (by simp [hr]))

theorem findInlineData_none (parts : List GeminiPart)
    (h : ∀ q ∈ parts, q.inlineData = none) : findInlineData parts = none := by
  induction parts with
  | nil => rfl
  | cons q qs ih =>
    have hq : q.inlineData = none := h q (by simp)
    simp only [findInlineData, hq]
    exact ih (fun r hr => h r (by simp [hr]))

/-- "The first candidate has no part carrying inline data": no content,
no part list, or every part's `inlineData` is absent (text parts allowed). -/
def firstCandidateHasNoInline (cand : GeminiCandidate) : Bool :=
  match cand.content with
  | none => true
  | some content =>
    match content.parts with
    | none => true
    | some parts => parts.all (fun q => q.inlineData.isNone)

theorem extract_none_of_noInline {r : GeminiResponse} {cand : GeminiCandidate}
    {cs : List GeminiCandidate} (hc : r.candidates = some (cand :: cs))
    (h : firstCandidateHasNoInline cand = true) :
    extractImageFromResponse r = none := by
  have hext : (match cand.content with
      | none => none
      | some content =>
        match content.parts with
        | none => none
        | some parts => findInlineData parts) = (none : Option GeneratedImage) := by
    unfold firstCandidateHasNoInline at h
    cases hcc : cand.content with
    | none => simp [hcc]
    | some content =>
      simp only [hcc] at h
      cases hp : content.parts with
      | none => simp [hcc, hp]
      | some parts =>
        simp only [hp] at h
        have hnone := findInlineData_none parts (fun q hq => by
          have h2 := List.all_eq_true.mp h q hq
          simpa [Option.isNone_iff_eq_none] using h2)
        simp [hcc, hp, hnone]
  unfold extractImageFromResponse
  rw [hc]
  simpa using hext

/-- C5: with no top-level error, `generateImage` returns the MIME type and
payload of the first part carrying inline data in the first candidate's
ordered part list; and when there is no candidate, or the first candidate
carries no inline-data part (even if text parts are present), it fails
with the "no asset generated" error. -/
theorem C5_first_inline_or_no_asset :
    (∀ (r : GeminiResponse) (cand : GeminiCandidate) (cs : List GeminiCandidate)
        (content : GeminiContent) (pre suf : List GeminiPart) (p : GeminiPart)
        (d : GeminiInlineData),
        r.error = none →
        r.candidates = some (cand :: cs) →
        cand.content = some content →
        content.parts = some (pre ++ p :: suf) →
        (∀ q ∈ pre, q.inlineData = none) →
        p.inlineData = some d →
        generateImageOutcome r = .ok { data := d.data, mimeType := d.mimeType })
    ∧ (∀ r : GeminiResponse,
        r.error = none →
        (r.candidates = none ∨ r.candidates = some [] ∨
          ∃ cand cs, r.candidates = some (cand :: cs) ∧
            firstCandidateHasNoInline cand = true) →
        generateImageOutcome r
          = .error "No image was generated. The API may have returned text only.") := by
  constructor
  · intro r cand cs content pre suf p d herr hcand hcont hparts hpre hp
    have hfind := findInlineData_append suf hpre hp
    have hext : extractImageFromResponse r
        = some { data := d.data, mimeType := d.mimeType } := by
      unfold extractImageFromResponse
      simp only [hcand, hcont, hparts, hfind]
    unfold generateImageOutcome
    rw [herr, hext]
  · intro r herr hcase
    have hext : extractImageFromResponse r = none := by
      rcases hcase with h | h | ⟨cand, cs, hc, hno⟩
      · unfold extractImageFromResponse
        rw [h]
      · unfold extractImageFromResponse
        rw [h]
      · exact extract_none_of_noInline hc hno
    unfold generateImageOutcome
    rw [herr, hext]

/-- Witness for C5: a response whose first candidate has a text part
followed by an inline-data part yields that inline data; a text-only
response and an empty-candidates response both fail with the
"no asset generated" error. -/
theorem C5_first_inline_or_no_asset_witness :
    generateImageOutcome
        { candidates := some [{ content := some { parts := some [
            { text := some "caption", inlineData := none },
            { text := none,
              inlineData := some { mimeType := "image/png", data := "QUJD" } }] } }],
          error := none }
      = .ok { data := "QUJD", mimeType := "image/png" }
    ∧ generateImageOutcome
        { candidates := some [{ content := some { parts := some [
            { text := some "only text", inlineData := none }] } }],
          error := none }
      = .error "No image was generated. The API may have returned text only."
    ∧ generateImageOutcome { candidates := some [], error := none }
      = .error "No image was generated. The API may have returned text only." :=
  ⟨C5_first_inline_or_no_asset.1 _
      { content := some { parts := some [
          { text := some "caption", inlineData := none },
          { text := none,
            inlineData := some { mimeType := "image/png", data := "QUJD" } }] } }
      [] _ [{ text := some "caption", inlineData := none }] [] _
      { mimeType := "image/png", data := "QUJD" }
      rfl rfl rfl rfl (by decide) rfl,
    C5_first_inline_or_no_asset.2 _ rfl
      (Or.inr (Or.inr ⟨_, [], rfl, by decide⟩)),
    C5_first_inline_or_no_asset.2 _ rfl (Or.inr (Or.inl rfl))⟩

/-- C10: capability classification is by substring containment, not exact
lookup: `"my-gemini-2.5-flash-image-v2"` equals no recognized model yet
still receives an imageConfig block; and any model matched by the
full-config list gets the full block, the full-config check taking
precedence over the aspect-ratio-only check. -/
theorem C10_substring_capability_match :
    (("my-gemini-2.5-flash-image-v2" : String) ∉ MODELS_WITH_FULL_IMAGE_CONFIG
      ∧ ("my-gemini-2.5-flash-image-v2" : String) ∉ MODELS_WITH_ASPECT_RATIO_ONLY)
    ∧ buildImageConfig "my-gemini-2.5-flash-image-v2" "21:9" "4K"
        = some { aspectRatio := "21:9", imageSize := none }
    ∧ (∀ model ar sz : String,
        MODELS_WITH_FULL_IMAGE_CONFIG.any (fun m => strIncludes model m) = true →
        buildImageConfig model ar sz
          = some { aspectRatio := ar, imageSize := some sz }) := by
  refine ⟨by decide, by decide, ?_⟩
  intro model ar sz h
  simp [buildImageConfig, h]

/-- Witness for C10: a model name containing both a full-config model name
and the aspect-ratio-only model name gets the full block. -/
theorem C10_substring_capability_match_witness :
    buildImageConfig "gemini-3-pro-image-with-gemini-2.5-flash-image" "1:1" "2K"
      = some { aspectRatio := "1:1", imageSize := some "2K" } :=
  C10_substring_capability_match.2.2
    "gemini-3-pro-image-with-gemini-2.5-flash-image" "1:1" "2K" (by decide)

/-!
## Generation orchestrator (`src/services/image-generator.ts`)
-/

/-- Plugin settings (`settings.ts`). -/
structure GenImageInserterSettings where
  envFilePath : String
  promptDirectory : String
  imageOutputDirectory : String
  notificationDelaySeconds : Nat
deriving DecidableEq

/-- Configuration loaded from the .env file (`types.ts`). -/
structure EnvConfig where
  llmProvider : String
  geminiApiKey : String
  geminiModel : String
deriving DecidableEq

/-- Parsed prompt file (`types.ts`).  `aspectRatio`/`imageSize` are kept as
strings; membership in the enumerated sets is proved as an invariant. -/
structure PromptFile where
  name : String
  path : String
  aspectRatio : String
  imageSize : String
  content : String
deriving DecidableEq

/-- The MIME-type table of `getExtensionFromMimeType`
(image-generator.ts lines 17–26). -/
def mimeToExt : List (String × String) :=
  [("image/png", ".png"), ("image/jpeg", ".jpg"), ("image/jpg", ".jpg"),
   ("image/webp", ".webp"), ("image/gif", ".gif")]

/-- `getExtensionFromMimeType`: table lookup, defaulting to `.png`. -/
def getExtensionFromMimeType (mimeType : String) : String :=
  match mimeToExt.find? (fun kv => kv.1 == mimeType) with
  | some kv => kv.2
  | none => ".png"

/-- The characters removed by `sanitizeFilename`'s first regex. -/
def isIllegalFilenameChar (c : Char) : Bool :=
  c = '<' || c = '>' || c = ':' || c = '"' || c = '/' ||
  c = '\\' || c = '|' || c = '?' || c = '*'

/-- JavaScript `replace(/\s+/g, '_')`: each maximal whitespace run becomes
a single underscore (`prevWs` records whether the previous character was
part of a run). -/
def collapseWsAux : Bool → List Char → List Char
  | _, [] => []
  | prevWs, c :: t =>
    if wsJs c then
      if prevWs then collapseWsAux true t else '_' :: collapseWsAux true t
    else c :: collapseWsAux false t

/-- `sanitizeFilename` (image-generator.ts lines 45–47): replace
`[<>:"/\\|?*]` by `_`, then collapse whitespace runs to `_`. -/
def sanitizeFilename (name : String) : String :=
  String.mk (collapseWsAux false
    (name.data.map (fun c => if isIllegalFilenameChar c then '_' else c)))

/-- JavaScript `replace(/^\/+|\/+$/g, '')`: strip leading and trailing
runs of slashes. -/
def stripSlashEnds (l : List Char) : List Char :=
  ((l.dropWhile (fun c => c = '/')).reverse.dropWhile (fun c => c = '/')).reverse

/-- The persisted-asset path computed by `saveImage`
(image-generator.ts lines 160–190): trimmed, slash-stripped base
directory, per-document output directory, and
`{timestamp}_{sanitizedNoteName}{ext}` file name. -/
def saveImagePath (imageOutputDirectory noteName timestamp mimeType : String) :
    String :=
  let baseDir := String.mk (stripSlashEnds (trimJs imageOutputDirectory.data))
  let outputDir := if baseDir ≠ "" then baseDir ++ "/" ++ noteName else noteName
  let ext := getExtensionFromMimeType mimeType
  let filename := timestamp ++ "_" ++ sanitizeFilename noteName ++ ext
  outputDir ++ "/" ++ filename

/-- The markdown link built by `generate` (image-generator.ts line 110). -/
def insertionText (imagePath : String) : String :=
  "\n![](<" ++ imagePath ++ ">)\n"

/-- Outcome of `ImageGeneratorService.generate`: success with the link and
the prompt name, the distinguished `null` return on user cancellation, or
a thrown error. -/
inductive GenerateOutcome where
  | success (imageLink : String) (promptName : String)
  | cancelled
  | failed (message : String)
deriving DecidableEq

/-- Outcomes of the orchestrator's external collaborators for one
invocation: `loadEnvFile`, `getPromptFiles`, `showPromptSelector`
(`none` = the user cancelled, the rejected promise), the provider call and
the vault save, plus the timestamp taken at save time. -/
structure OrchestratorEnv where
  settings : GenImageInserterSettings
  envLoad : Except String EnvConfig
  promptFiles : Except String (List PromptFile)
  selection : Option PromptFile
  apiResult : Except String GeneratedImage
  saveResult : Except String Unit
  timestamp : String

/-- The failure notification text (image-generator.ts line 121). -/
def failedNotice (msg : String) : String :=
  "Failed to generate image: " ++ msg

/-- The success notification text (image-generator.ts line 113). -/
def successNotice (promptName : String) : String :=
  "Image generated (" ++ promptName ++ ")"

/-- `ImageGeneratorService.generate` (image-generator.ts lines 73–124),
with collaborator outcomes injected through `env`.  Returns the outcome,
the number of provider network calls made, and the notices shown. -/
def generate (env : OrchestratorEnv) (sourceText noteName : String) :
    GenerateOutcome × Nat × List String :=
  if env.settings.envFilePath = "" then
    let msg := ".env file path is not configured. Please check plugin settings."
    (.failed msg, 0, [failedNotice msg])
  else if env.settings.promptDirectory = "" then
    let msg := "Prompt directory is not configured. Please check plugin settings."
    (.failed msg, 0, [failedNotice msg])
  else
    match env.envLoad with
    | .error e => (.failed e, 0, [failedNotice e])
    | .ok _ =>
      match env.promptFiles with
      | .error e => (.failed e, 0, [failedNotice e])
      | .ok _ =>
        match env.selection with
        | none => (.cancelled, 0, [])
        | some selectedPrompt =>
          match env.apiResult with
          | .error e => (.failed e, 1, [failedNotice e])
          | .ok image =>
            match env.saveResult with
            | .error e => (.failed e, 1, [failedNotice e])
            | .ok _ =>
              let imagePath := saveImagePath env.settings.imageOutputDirectory
                noteName env.timestamp image.mimeType
              (.success (insertionText imagePath) selectedPrompt.name, 1,
                [successNotice selectedPrompt.name])

/-- C8: when the user explicitly cancels template selection (and the
pipeline reached the selection step), `generate` returns the distinguished
cancelled outcome — not a failure, not a success — makes no provider
network call, and surfaces no notification. -/
theorem C8_cancel_no_network_no_notice (env : OrchestratorEnv)
    (sourceText noteName : String) (cfg : EnvConfig) (ps : List PromptFile)
    (h1 : env.settings.envFilePath ≠ "")
    (h2 : env.settings.promptDirectory ≠ "")
    (h3 : env.envLoad = .ok cfg)
    (h4 : env.promptFiles = .ok ps)
    (h5 : env.selection = none) :
    generate env sourceText noteName = (.cancelled, 0, []) := by
  unfold generate
  rw [h3, h4, h5]
  simp [h1, h2]

/-- Witness for C8: a concrete cancelled invocation. -/
theorem C8_cancel_no_network_no_notice_witness :
    generate
      { settings := { envFilePath := "/home/u/.env", promptDirectory := "prompts",
                      imageOutputDirectory := "assets", notificationDelaySeconds := 3 },
        envLoad := .ok { llmProvider := "gemini", geminiApiKey := "k",
                         geminiModel := "gemini-2.5-flash-image" },
        promptFiles := .ok [{ name := "p", path := "prompts/p.md",
                              aspectRatio := "1:1", imageSize := "1K",
                              content := "Draw" }],
        selection := none,
        apiResult := .error "unused",
        saveResult := .ok (),
        timestamp := "20260207143052" }
      "text" "Note"
      = (.cancelled, 0, []) :=
  C8_cancel_no_network_no_notice _ "text" "Note"
    { llmProvider := "gemini", geminiApiKey := "k",
      geminiModel := "gemini-2.5-flash-image" }
    [{ name := "p", path := "prompts/p.md", aspectRatio := "1:1",
       imageSize := "1K", content := "Draw" }]
    (by decide) (by decide) rfl rfl rfl

/-- C9: on every successful generation the insertion text is exactly
`\n![](<{persistedAssetPath}>)\n` for the persisted path computed from the
output base directory, the document name, the timestamp and the
MIME-derived extension; the extension mapping is png/jpeg/jpg/webp/gif
with `.png` for anything else; and the documented concrete example path
holds. -/
theorem C9_insertion_text_and_path :
    (∀ (env : OrchestratorEnv) (sourceText noteName : String)
        (img : GeneratedImage) (cfg : EnvConfig) (ps : List PromptFile)
        (prompt : PromptFile),
        env.settings.envFilePath ≠ "" →
        env.settings.promptDirectory ≠ "" →
        env.envLoad = .ok cfg →
        env.promptFiles = .ok ps →
        env.selection = some prompt →
        env.apiResult = .ok img →
        env.saveResult = .ok () →
        generate env sourceText noteName
          = (.success
              ("\n![](<" ++ saveImagePath env.settings.imageOutputDirectory
                  noteName env.timestamp img.mimeType ++ ">)\n")
              prompt.name,
             1, [successNotice prompt.name]))
    ∧ (getExtensionFromMimeType "image/png" = ".png"
       ∧ getExtensionFromMimeType "image/jpeg" = ".jpg"
       ∧ getExtensionFromMimeType "image/jpg" = ".jpg"
       ∧ getExtensionFromMimeType "image/webp" = ".webp"
       ∧ getExtensionFromMimeType "image/gif" = ".gif"
       ∧ ∀ m : String,
           m ∉ ["image/png", "image/jpeg", "image/jpg", "image/webp", "image/gif"] →
           getExtensionFromMimeType m = ".png")
    ∧ saveImagePath "assets/generated" "My Travels" "20260207143052" "image/png"
        = "assets/generated/My Travels/20260207143052_My_Travels.png" := by
  refine ⟨?_, ⟨by decide, by decide, by decide, by decide, by decide, ?_⟩, by decide⟩
  · intro env sourceText noteName img cfg ps prompt h1 h2 h3 h4 h5 h6 h7
    unfold generate
    rw [h3, h4, h5, h6, h7]
    simp [h1, h2, insertionText]
  · intro m hm
    unfold getExtensionFromMimeType
    have hnone : mimeToExt.find? (fun kv => kv.1 == m) = none := by
      rw [List.find?_eq_none]
      intro kv hkv
      simp only [mimeToExt, List.mem_cons, List.not_mem_nil, or_false] at hkv
      rcases hkv with rfl | rfl | rfl | rfl | rfl
      all_goals
        simp only [beq_iff_eq]
        intro heq
        exact hm (by rw [← heq]; decide)
    rw [hnone]

/-- Witness for C9: a fully successful concrete invocation produces the
documented link, and an unrecognized MIME type falls back to `.png`. -/
theorem C9_insertion_text_and_path_witness :
    generate
      { settings := { envFilePath := "/home/u/.env", promptDirectory := "prompts",
                      imageOutputDirectory := "assets/generated",
                      notificationDelaySeconds := 3 },
        envLoad := .ok { llmProvider := "gemini", geminiApiKey := "k",
                         geminiModel := "gemini-2.5-flash-image" },
        promptFiles := .ok [{ name := "watercolor", path := "prompts/watercolor.md",
                              aspectRatio := "1:1", imageSize := "1K",
                              content := "Paint" }],
        selection := some { name := "watercolor", path := "prompts/watercolor.md",
                            aspectRatio := "1:1", imageSize := "1K",
                            content := "Paint" },
        apiResult := .ok { data := "QUJD", mimeType := "image/png" },
        saveResult := .ok (),
        timestamp := "20260207143052" }
      "text" "My Travels"
      = (.success
          "\n![](<assets/generated/My Travels/20260207143052_My_Travels.png>)\n"
          "watercolor",
         1, ["Image generated (watercolor)"])
    ∧ getExtensionFromMimeType "image/tiff" = ".png" := by
  constructor
  · have h := C9_insertion_text_and_path.1
      { settings := { envFilePath := "/home/u/.env", promptDirectory := "prompts",
                      imageOutputDirectory := "assets/generated",
                      notificationDelaySeconds := 3 },
        envLoad := .ok { llmProvider := "gemini", geminiApiKey := "k",
                         geminiModel := "gemini-2.5-flash-image" },
        promptFiles := .ok [{ name := "watercolor", path := "prompts/watercolor.md",
                              aspectRatio := "1:1", imageSize := "1K",
                              content := "Paint" }],
        selection := some { name := "watercolor", path := "prompts/watercolor.md",
                            aspectRatio := "1:1", imageSize := "1K",
                            content := "Paint" },
        apiResult := .ok { data := "QUJD", mimeType := "image/png" },
        saveResult := .ok (),
        timestamp := "20260207143052" }
      "text" "My Travels"
      { data := "QUJD", mimeType := "image/png" }
      { llmProvider := "gemini", geminiApiKey := "k",
        geminiModel := "gemini-2.5-flash-image" }
      [{ name := "watercolor", path := "prompts/watercolor.md",
         aspectRatio := "1:1", imageSize := "1K", content := "Paint" }]
      { name := "watercolor", path := "prompts/watercolor.md",
        aspectRatio := "1:1", imageSize := "1K", content := "Paint" }
      (by decide) (by decide) rfl rfl rfl rfl rfl
    exact h.trans (by decide)
  · exact C9_insertion_text_and_path.2.1.2.2.2.2.2 "image/tiff" (by decide)

/-!
## Template resolver (`src/utils/prompt-parser.ts`)
-/

/-- Valid aspect ratios (`types.ts`). -/
def VALID_ASPECT_RATIOS : List String :=
  ["1:1", "2:3", "3:2", "3:4", "4:3", "4:5", "5:4", "9:16", "16:9", "21:9"]

/-- Valid image sizes (`types.ts`). -/
def VALID_IMAGE_SIZES : List String := ["1K", "2K", "4K"]

/-- `DEFAULTS.aspectRatio` (`types.ts`). -/
def DEFAULTS_aspectRatio : String := "1:1"

/-- `DEFAULTS.imageSize` (`types.ts`). -/
def DEFAULTS_imageSize : String := "1K"

/-- `isValidAspectRatio` (prompt-parser.ts lines 242–244). -/
def isValidAspectRatio (value : String) : Bool :=
  VALID_ASPECT_RATIOS.contains value

/-- `isValidImageSize` (prompt-parser.ts lines 249–251). -/
def isValidImageSize (value : String) : Bool :=
  VALID_IMAGE_SIZES.contains value

/-- The single-quote character. -/
def squote : Char := Char.ofNat 39

/-!
The frontmatter regex `/^---\s*\n([\s\S]*?)\n---\s*\n?/` is modelled with
JavaScript backtracking semantics: after the literal `---`, the greedy
`\s*\n` proposes every split of a whitespace run ending at a newline
(longest first); the lazy group then finds the shortest prefix followed by
the literal `\n---`; the trailing `\s*\n?` greedily consumes the following
whitespace run.
-/

/-- Backtracking alternatives for `\s*\n`: the remainders after every
prefix of the form (whitespace run ++ newline), longest run first. -/
def matchOpen : List Char → List (List Char)
  | [] => []
  | c :: t =>
    if wsJs c then matchOpen t ++ (if c = '\n' then [t] else []) else []

/-- The lazy group followed by `\n---`: split at the first occurrence of
`\n---`, returning the group and the remainder after `\n---`. -/
def findClose : List Char → Option (List Char × List Char)
  | [] => none
  | c :: t =>
    if (['\n', '-', '-', '-'] : List Char).isPrefixOf (c :: t) then
      some ([], (c :: t).drop 4)
    else
      match findClose t with
      | none => none
      | some (g, r) => some (c :: g, r)

/-- Try the `\s*\n` splits in backtracking priority order; on success,
consume the trailing `\s*\n?` (the following whitespace run). -/
def pickClose : List (List Char) → Option (List Char × List Char)
  | [] => none
  | s :: rest =>
    match findClose s with
    | some (g, r) => some (g, r.dropWhile wsJs)
    | none => pickClose rest

/-- `content.match(FRONTMATTER_REGEX)` (prompt-parser.ts line 115):
`some (group1, remainderAfterMatch)` when the anchored regex matches. -/
def frontmatterMatch (content : List Char) : Option (List Char × List Char) :=
  match content with
  | '-' :: '-' :: '-' :: s1 => pickClose (matchOpen s1)
  | _ => none

/-- Strip one pair of surrounding quotes (prompt-parser.ts lines 228–231). -/
def unquoteValue (v : List Char) : List Char :=
  if (v.head? = some '"' ∧ v.getLast? = some '"') ∨
     (v.head? = some squote ∧ v.getLast? = some squote) then
    (v.drop 1).dropLast
  else v

/-- One iteration of the `parseSimpleYaml` loop (prompt-parser.ts lines
213–234): skip blank and `#` lines and lines without a colon; otherwise
record the trimmed key and the trimmed, unquoted value. -/
def processYamlLine (result : List (List Char × List Char)) (line : List Char) :
    List (List Char × List Char) :=
  if trimJs line = [] then result
  else if (trimJs line).head? = some '#' then result
  else if ((trimJs line).takeWhile (fun c => c ≠ ':')).length
      = (trimJs line).length then result
  else
    result ++ [(trimJs ((trimJs line).takeWhile (fun c => c ≠ ':')),
      unquoteValue (trimJs ((trimJs line).drop
        (((trimJs line).takeWhile (fun c => c ≠ ':')).length + 1))))]

/-- `parseSimpleYaml` (prompt-parser.ts lines 209–237), as the ordered
list of bindings (later lines overwrite earlier ones at lookup). -/
def parseSimpleYaml (yaml : List Char) : List (List Char × List Char) :=
  (splitOnNl yaml).foldl processYamlLine []

/-- JavaScript object lookup on the binding list: last write wins. -/
def yamlGet (key : List Char) (m : List (List Char × List Char)) :
    Option (List Char) :=
  match m.reverse.find? (fun kv => kv.1 == key) with
  | some kv => some kv.2
  | none => none

/-- `parsePromptFile` (prompt-parser.ts lines 160–202).  Defaults are used
unless the frontmatter matched with a nonempty (truthy) capture; a present
but empty or invalid value falls back to the default; the body is the
content after the match, trimmed — or the whole content when the
frontmatter branch is not taken. -/
def parsePromptFile (name filePath content : String) : PromptFile :=
  match frontmatterMatch content.data with
  | some (g, rest) =>
    if g ≠ [] then
      let frontmatter := parseSimpleYaml g
      let aspectRatio :=
        match yamlGet ("aspect_ratio").data frontmatter with
        | some v =>
          if v ≠ [] then
            if isValidAspectRatio (String.mk v) then String.mk v
            else DEFAULTS_aspectRatio
          else DEFAULTS_aspectRatio
        | none => DEFAULTS_aspectRatio
      let imageSize :=
        match yamlGet ("image_size").data frontmatter with
        | some v =>
          if v ≠ [] then
            if isValidImageSize (String.mk v) then String.mk v
            else DEFAULTS_imageSize
          else DEFAULTS_imageSize
        | none => DEFAULTS_imageSize
      { name := name, path := filePath, aspectRatio := aspectRatio,
        imageSize := imageSize, content := String.mk (trimJs rest) }
    else
      { name := name, path := filePath, aspectRatio := DEFAULTS_aspectRatio,
        imageSize := DEFAULTS_imageSize, content := content }
  | none =>
    { name := name, path := filePath, aspectRatio := DEFAULTS_aspectRatio,
      imageSize := DEFAULTS_imageSize, content := content }

/-!
### Lemmas about trimming, splitting and the frontmatter match
-/

theorem head?_mem {l : List Char} {c : Char} (h : l.head? = some c) : c ∈ l := by
  cases l with
  | nil => simp at h
  | cons a t =>
    simp at h
    simp [h]

theorem getLast?_mem {l : List Char} {c : Char} (h : l.getLast? = some c) :
    c ∈ l := by
  have hmem : c ∈ l.getLast? := Option.mem_def.mpr h
  rcases List.mem_getLast?_eq_getLast hmem with ⟨hne, heq⟩
  exact heq ▸ List.getLast_mem hne

theorem head?_dropWhile_false {p : Char → Bool} {l : List Char} {c : Char}
    (h : (l.dropWhile p).head? = some c) : p c = false := by
  induction l with
  | nil => simp at h
  | cons a t ih =>
    rw [List.dropWhile_cons] at h
    cases hp : p a with
    | true =>
      rw [hp] at h
      simp at h
      exact ih h
    | false =>
      rw [hp] at h
      simp at h
      rw [← h]
      exact hp

theorem dropWhile_eq_self_of_head {p : Char → Bool} {l : List Char}
    (h : ∀ c, l.head? = some c → p c = false) : l.dropWhile p = l := by
  cases l with
  | nil => rfl
  | cons a t =>
    rw [List.dropWhile_cons, h a rfl]
    simp

theorem dropWhile_stable (p : Char → Bool) (l : List Char) :
    (l.dropWhile p).dropWhile p = l.dropWhile p :=
  dropWhile_eq_self_of_head (fun _ hc => head?_dropWhile_false hc)

theorem trimJs_head_false {l : List Char} {c : Char}
    (h : (trimJs l).head? = some c) : wsJs c = false := by
  have hsplit : l.dropWhile wsJs
      = trimJs l ++ ((l.dropWhile wsJs).reverse.takeWhile wsJs).reverse := by
    calc l.dropWhile wsJs
        = ((l.dropWhile wsJs).reverse).reverse := (List.reverse_reverse _).symm
      _ = (((l.dropWhile wsJs).reverse.takeWhile wsJs)
            ++ ((l.dropWhile wsJs).reverse.dropWhile wsJs)).reverse := by
          rw [List.takeWhile_append_dropWhile]
      _ = ((l.dropWhile wsJs).reverse.dropWhile wsJs).reverse
            ++ ((l.dropWhile wsJs).reverse.takeWhile wsJs).reverse := by
          rw [List.reverse_append]
      _ = trimJs l ++ ((l.dropWhile wsJs).reverse.takeWhile wsJs).reverse := rfl
  have hhead : (l.dropWhile wsJs).head? = some c := by
    rw [hsplit]
    cases htl : trimJs l with
    | nil =>
      rw [htl] at h
      simp at h
    | cons a t =>
      rw [htl] at h
      simp at h
      simp only [List.cons_append, List.head?_cons]
      rw [h]
  exact head?_dropWhile_false hhead

theorem trimJs_idem (l : List Char) : trimJs (trimJs l) = trimJs l := by
  have S1 : (trimJs l).dropWhile wsJs = trimJs l :=
    dropWhile_eq_self_of_head (fun _ hc => trimJs_head_false hc)
  have S2 : (trimJs l).reverse = (l.dropWhile wsJs).reverse.dropWhile wsJs := by
    unfold trimJs
    rw [List.reverse_reverse]
  calc trimJs (trimJs l)
      = (((trimJs l).dropWhile wsJs).reverse.dropWhile wsJs).reverse := rfl
    _ = ((trimJs l).reverse.dropWhile wsJs).reverse := by rw [S1]
    _ = (((l.dropWhile wsJs).reverse.dropWhile wsJs).dropWhile wsJs).reverse := by
        rw [S2]
    _ = ((l.dropWhile wsJs).reverse.dropWhile wsJs).reverse := by
        rw [dropWhile_stable]
    _ = trimJs l := rfl

theorem trimJs_no_ws {l : List Char} (h : ∀ c ∈ l, wsJs c = false) :
    trimJs l = l := by
  unfold trimJs
  rw [dropWhile_eq_self_of_head (fun c hc => h c (head?_mem hc))]
  rw [dropWhile_eq_self_of_head (fun c hc => h c (by
    have := head?_mem hc
    simpa using this))]
  exact List.reverse_reverse l

theorem trimJs_cons_ws {c : Char} {l : List Char} (h : wsJs c = true) :
    trimJs (c :: l) = trimJs l := by
  unfold trimJs
  rw [List.dropWhile_cons, h]
  simp

theorem trimJs_eq_self {l : List Char}
    (hh : ∀ c, l.head? = some c → wsJs c = false)
    (hl : ∀ c, l.getLast? = some c → wsJs c = false) : trimJs l = l := by
  unfold trimJs
  rw [dropWhile_eq_self_of_head hh]
  rw [dropWhile_eq_self_of_head (fun c hc => hl c (by
    rw [← List.head?_reverse]
    exact hc))]
  exact List.reverse_reverse l

theorem splitOnNl_no_nl {l : List Char} (h : ∀ c ∈ l, c ≠ '\n') :
    splitOnNl l = [l] := by
  induction l with
  | nil => rfl
  | cons c t ih =>
    have hc : c ≠ '\n' := h c (by simp)
    simp [splitOnNl, hc, ih (fun d hd => h d (by simp [hd]))]

theorem takeWhile_append_stop {p : Char → Bool} {A : List Char} {b : Char}
    {t : List Char} (hA : ∀ c ∈ A, p c = true) (hb : p b = false) :
    (A ++ b :: t).takeWhile p = A := by
  induction A with
  | nil => simp [List.takeWhile_cons, hb]
  | cons a A' ih =>
    have ha := hA a (by simp)
    simp [List.takeWhile_cons, ha, ih (fun c hc => hA c (by simp [hc]))]

theorem isPrefixOf_nlDashes (t : List Char) :
    (['\n', '-', '-', '-'] : List Char).isPrefixOf ('\n' :: '-' :: '-' :: '-' :: t)
      = true :=
  List.isPrefixOf_iff_prefix.mpr ⟨t, rfl⟩

theorem isPrefixOf_nlDashes_false {c : Char} (t : List Char) (hc : c ≠ '\n') :
    (['\n', '-', '-', '-'] : List Char).isPrefixOf (c :: t) = false := by
  cases h : (['\n', '-', '-', '-'] : List Char).isPrefixOf (c :: t) with
  | false => rfl
  | true =>
    exfalso
    rcases List.isPrefixOf_iff_prefix.mp h with ⟨s, hs⟩
    have : '\n' = c := by
      have := congrArg List.head? hs
      simpa using this
    exact hc this.symm

theorem findClose_append {H t : List Char} (hH : ∀ c ∈ H, c ≠ '\n') :
    findClose (H ++ '\n' :: '-' :: '-' :: '-' :: t) = some (H, t) := by
  induction H with
  | nil =>
    rw [List.nil_append, findClose, if_pos (by rw [isPrefixOf_nlDashes])]
    simp
  | cons c H' ih =>
    have hc : c ≠ '\n' := hH c (by simp)
    rw [List.cons_append, findClose,
      if_neg (by rw [isPrefixOf_nlDashes_false _ hc]; simp)]
    rw [ih (fun d hd => hH d (by simp [hd]))]

theorem matchOpen_nl_head {c : Char} (t : List Char) (hc : wsJs c = false) :
    matchOpen ('\n' :: c :: t) = [c :: t] := by
  have hnl : wsJs '\n' = true := by decide
  simp [matchOpen, hnl, hc]

/-- The frontmatter regex on `---\n{header}\n---\n{body}` where the header
starts with a non-whitespace character and contains no newline: the
capture is the header and the remainder is the body less its leading
whitespace. -/
theorem frontmatterMatch_header (h0 : Char) (H' body : List Char)
    (hh0 : wsJs h0 = false) (hH : ∀ c ∈ h0 :: H', c ≠ '\n') :
    frontmatterMatch
        (('-' :: '-' :: '-' :: '\n' :: []) ++ (h0 :: H')
          ++ ('\n' :: '-' :: '-' :: '-' :: '\n' :: []) ++ body)
      = some (h0 :: H', body.dropWhile wsJs) := by
  have hshape : ('-' :: '-' :: '-' :: '\n' :: []) ++ (h0 :: H')
        ++ ('\n' :: '-' :: '-' :: '-' :: '\n' :: []) ++ body
      = '-' :: '-' :: '-' :: ('\n' :: h0 ::
          (H' ++ '\n' :: '-' :: '-' :: '-' :: ('\n' :: body))) := by
    simp [List.append_assoc]
  rw [hshape]
  show pickClose (matchOpen ('\n' :: h0 ::
      (H' ++ '\n' :: '-' :: '-' :: '-' :: ('\n' :: body)))) = _
  rw [matchOpen_nl_head _ hh0]
  show (match findClose (h0 :: (H' ++ '\n' :: '-' :: '-' :: '-' :: ('\n' :: body))) with
    | some (g, r) => some (g, r.dropWhile wsJs)
    | none => pickClose []) = _
  have hfc : findClose ((h0 :: H') ++ '\n' :: '-' :: '-' :: '-' :: ('\n' :: body))
      = some (h0 :: H', '\n' :: body) := findClose_append hH
  rw [List.cons_append] at hfc
  rw [hfc]
  have hnl : wsJs '\n' = true := by decide
  simp [List.dropWhile_cons, hnl]

theorem unquoteValue_plain {vd : List Char}
    (hv : ∀ c ∈ vd, c ≠ '"' ∧ c ≠ squote) : unquoteValue vd = vd := by
  unfold unquoteValue
  rw [if_neg]
  rintro (⟨h1, _⟩ | ⟨h1, _⟩)
  · exact (hv _ (head?_mem h1)).1 rfl
  · exact (hv _ (head?_mem h1)).2 rfl

/-- `parseSimpleYaml` on the single header line `{key}: {value}` for a
colon-free, whitespace-free key and a plain (whitespace- and quote-free,
nonempty) value. -/
theorem parseSimpleYaml_keyval {k0 : Char} {K' vd : List Char}
    (hk0h : k0 ≠ '#')
    (hK : ∀ c ∈ k0 :: K', c ≠ ':' ∧ wsJs c = false)
    (hvne : vd ≠ [])
    (hv : ∀ c ∈ vd, wsJs c = false ∧ c ≠ '"' ∧ c ≠ squote) :
    parseSimpleYaml ((k0 :: K') ++ ':' :: ' ' :: vd) = [(k0 :: K', vd)] := by
  have hnoNl : ∀ c ∈ (k0 :: K') ++ ':' :: ' ' :: vd, c ≠ '\n' := by
    intro c hc
    rcases List.mem_append.mp hc with h | h
    · intro he
      have hws := (hK c h).2
      rw [he] at hws
      exact absurd hws (by decide)
    · rcases List.mem_cons.mp h with rfl | h2
      · decide
      · rcases List.mem_cons.mp h2 with rfl | h3
        · decide
        · intro he
          have hws := (hv c h3).1
          rw [he] at hws
          exact absurd hws (by decide)
  have htrim : trimJs ((k0 :: K') ++ ':' :: ' ' :: vd)
      = (k0 :: K') ++ ':' :: ' ' :: vd := by
    apply trimJs_eq_self
    · intro c hc
      simp only [List.cons_append, List.head?_cons, Option.some.injEq] at hc
      rw [← hc]
      exact (hK k0 (by simp)).2
    · intro c hc
      have hHeq : (k0 :: K') ++ ':' :: ' ' :: vd
          = ((k0 :: K') ++ [':', ' ']) ++ vd := by
        simp [List.append_assoc]
      rw [hHeq, List.getLast?_append_of_ne_nil _ hvne] at hc
      exact (hv c (getLast?_mem hc)).1
  have hkp : ((k0 :: K') ++ ':' :: ' ' :: vd).takeWhile (fun c => c ≠ ':')
      = k0 :: K' :=
    takeWhile_append_stop (fun c hc => decide_eq_true ((hK c hc).1)) (by decide)
  have hdrop : ((k0 :: K') ++ ':' :: ' ' :: vd).drop ((k0 :: K').length + 1)
      = ' ' :: vd := by
    rw [← List.drop_drop, List.drop_left]
    rfl
  have hvtrim : trimJs (' ' :: vd) = vd := by
    rw [trimJs_cons_ws (by decide)]
    exact trimJs_no_ws (fun c hc => (hv c hc).1)
  have hktrim : trimJs (k0 :: K') = k0 :: K' :=
    trimJs_no_ws (fun c hc => (hK c hc).2)
  unfold parseSimpleYaml
  rw [splitOnNl_no_nl hnoNl]
  show processYamlLine [] ((k0 :: K') ++ ':' :: ' ' :: vd) = _
  unfold processYamlLine
  rw [htrim, hkp, hdrop, hvtrim]
  rw [if_neg (by simp)]
  rw [if_neg (by
    simp only [List.cons_append, List.head?_cons, Option.some.injEq]
    exact hk0h)]
  rw [if_neg (by
    simp only [List.length_cons, List.length_append]
    omega)]
  rw [hktrim, unquoteValue_plain (fun c hc => ((hv c hc).2))]
  rfl

theorem yamlGet_singleton_eq (k v : List Char) : yamlGet k [(k, v)] = some v := by
  unfold yamlGet
  simp

theorem yamlGet_singleton_ne {k k2 : List Char} (v : List Char) (h : ¬ k = k2) :
    yamlGet k2 [(k, v)] = none := by
  unfold yamlGet
  simp [List.find?, beq_eq_false_iff_ne.mpr h]

/-- A canonical template resource carrying both header values. -/
def mkHeaderContent (ar sz : String) : String :=
  "---\naspect_ratio: " ++ ar ++ "\nimage_size: " ++ sz ++ "\n---\nPrompt body."

/-- A canonical template resource carrying only an aspect-ratio value. -/
def mkAspectContent (v : String) : String :=
  "---\naspect_ratio: " ++ v ++ "\n---\nBody."

/-- A canonical template resource carrying only an image-size value. -/
def mkSizeContent (v : String) : String :=
  "---\nimage_size: " ++ v ++ "\n---\nBody."

theorem parsePromptFile_aspect_out_of_set (v : String) (hvne : v.data ≠ [])
    (hv : ∀ c ∈ v.data, wsJs c = false ∧ c ≠ '"' ∧ c ≠ squote)
    (hbad : isValidAspectRatio v = false) :
    (parsePromptFile "t" "t.md" (mkAspectContent v)).aspectRatio
      = DEFAULTS_aspectRatio := by
  have hH : ∀ c ∈ 'a' :: (("spect_ratio: ").data ++ v.data), c ≠ '\n' := by
    intro c hc
    rcases List.mem_cons.mp hc with rfl | hc2
    · decide
    · rcases List.mem_append.mp hc2 with h | h
      · intro he
        rw [he] at h
        exact absurd h (by decide)
      · intro he
        have hws := (hv c h).1
        rw [he] at hws
        exact absurd hws (by decide)
  have hfm0 := frontmatterMatch_header 'a' (("spect_ratio: ").data ++ v.data)
      (("Body.").data) (by decide) hH
  have hcontent : (mkAspectContent v).data
      = ('-' :: '-' :: '-' :: '\n' :: []) ++ ('a' :: (("spect_ratio: ").data ++ v.data))
        ++ ('\n' :: '-' :: '-' :: '-' :: '\n' :: []) ++ ("Body.").data := by
    show ("---\naspect_ratio: " ++ v ++ "\n---\nBody.").data = _
    rw [String.data_append, String.data_append]
    rw [show ("---\naspect_ratio: ").data
        = '-' :: '-' :: '-' :: '\n' :: 'a' :: ("spect_ratio: ").data from rfl]
    rw [show ("\n---\nBody.").data
        = '\n' :: '-' :: '-' :: '-' :: '\n' :: ("Body.").data from rfl]
    simp [List.append_assoc]
  have hdwB : ("Body.").data.dropWhile wsJs = ("Body.").data := rfl
  have hfm : frontmatterMatch (mkAspectContent v).data
      = some ('a' :: (("spect_ratio: ").data ++ v.data), ("Body.").data) := by
    rw [hcontent, hfm0, hdwB]
  have hyaml : parseSimpleYaml ('a' :: (("spect_ratio: ").data ++ v.data))
      = [(("aspect_ratio").data, v.data)] := by
    have hgshape : 'a' :: (("spect_ratio: ").data ++ v.data)
        = ('a' :: ("spect_ratio").data) ++ ':' :: ' ' :: v.data := by
      rw [show ("spect_ratio: ").data
          = ("spect_ratio").data ++ ':' :: ' ' :: [] from rfl]
      simp [List.append_assoc]
    rw [hgshape]
    exact parseSimpleYaml_keyval (by decide) (by decide) hvne hv
  have hmkv : String.mk v.data = v := rfl
  have hyaml2 := hyaml
  simp only [List.cons_append, List.nil_append] at hyaml2
  unfold parsePromptFile
  rw [hfm]
  simp [hyaml2, yamlGet_singleton_eq, hvne, hmkv, hbad]

theorem parsePromptFile_size_out_of_set (v : String) (hvne : v.data ≠ [])
    (hv : ∀ c ∈ v.data, wsJs c = false ∧ c ≠ '"' ∧ c ≠ squote)
    (hbad : isValidImageSize v = false) :
    (parsePromptFile "t" "t.md" (mkSizeContent v)).imageSize
      = DEFAULTS_imageSize := by
  have hH : ∀ c ∈ 'i' :: (("mage_size: ").data ++ v.data), c ≠ '\n' := by
    intro c hc
    rcases List.mem_cons.mp hc with rfl | hc2
    · decide
    · rcases List.mem_append.mp hc2 with h | h
      · intro he
        rw [he] at h
        exact absurd h (by decide)
      · intro he
        have hws := (hv c h).1
        rw [he] at hws
        exact absurd hws (by decide)
  have hfm0 := frontmatterMatch_header 'i' (("mage_size: ").data ++ v.data)
      (("Body.").data) (by decide) hH
  have hcontent : (mkSizeContent v).data
      = ('-' :: '-' :: '-' :: '\n' :: []) ++ ('i' :: (("mage_size: ").data ++ v.data))
        ++ ('\n' :: '-' :: '-' :: '-' :: '\n' :: []) ++ ("Body.").data := by
    show ("---\nimage_size: " ++ v ++ "\n---\nBody.").data = _
    rw [String.data_append, String.data_append]
    rw [show ("---\nimage_size: ").data
        = '-' :: '-' :: '-' :: '\n' :: 'i' :: ("mage_size: ").data from rfl]
    rw [show ("\n---\nBody.").data
        = '\n' :: '-' :: '-' :: '-' :: '\n' :: ("Body.").data from rfl]
    simp [List.append_assoc]
  have hdwB : ("Body.").data.dropWhile wsJs = ("Body.").data := rfl
  have hfm : frontmatterMatch (mkSizeContent v).data
      = some ('i' :: (("mage_size: ").data ++ v.data), ("Body.").data) := by
    rw [hcontent, hfm0, hdwB]
  have hyaml : parseSimpleYaml ('i' :: (("mage_size: ").data ++ v.data))
      = [(("image_size").data, v.data)] := by
    have hgshape : 'i' :: (("mage_size: ").data ++ v.data)
        = ('i' :: ("mage_size").data) ++ ':' :: ' ' :: v.data := by
      rw [show ("mage_size: ").data
          = ("mage_size").data ++ ':' :: ' ' :: [] from rfl]
      simp [List.append_assoc]
    rw [hgshape]
    exact parseSimpleYaml_keyval (by decide) (by decide) hvne hv
  have hmkv : String.mk v.data = v := rfl
  have hyaml2 := hyaml
  simp only [List.cons_append, List.nil_append] at hyaml2
  unfold parsePromptFile
  rw [hfm]
  simp [hyaml2, yamlGet_singleton_eq, yamlGet_singleton_ne, hvne, hmkv, hbad]

theorem validated_aspect (o : Option (List Char)) :
    isValidAspectRatio (match o with
      | some v =>
        if v ≠ [] then
          if isValidAspectRatio (String.mk v) then String.mk v
          else DEFAULTS_aspectRatio
        else DEFAULTS_aspectRatio
      | none => DEFAULTS_aspectRatio) = true := by
  match o with
  | none => decide
  | some v =>
    show isValidAspectRatio (if v ≠ [] then
        if isValidAspectRatio (String.mk v) then String.mk v
        else DEFAULTS_aspectRatio
      else DEFAULTS_aspectRatio) = true
    by_cases h1 : v ≠ []
    · rw [if_pos h1]
      by_cases h2 : isValidAspectRatio (String.mk v) = true
      · rw [if_pos h2]
        exact h2
      · rw [if_neg h2]
        decide
    · rw [if_neg h1]
      decide

theorem validated_size (o : Option (List Char)) :
    isValidImageSize (match o with
      | some v =>
        if v ≠ [] then
          if isValidImageSize (String.mk v) then String.mk v
          else DEFAULTS_imageSize
        else DEFAULTS_imageSize
      | none => DEFAULTS_imageSize) = true := by
  match o with
  | none => decide
  | some v =>
    show isValidImageSize (if v ≠ [] then
        if isValidImageSize (String.mk v) then String.mk v
        else DEFAULTS_imageSize
      else DEFAULTS_imageSize) = true
    by_cases h1 : v ≠ []
    · rw [if_pos h1]
      by_cases h2 : isValidImageSize (String.mk v) = true
      · rw [if_pos h2]
        exact h2
      · rw [if_neg h2]
        decide
    · rw [if_neg h1]
      decide

theorem parsePromptFile_invariant (name path content : String) :
    isValidAspectRatio (parsePromptFile name path content).aspectRatio = true
    ∧ isValidImageSize (parsePromptFile name path content).imageSize = true := by
  unfold parsePromptFile
  split
  · split
    · exact ⟨validated_aspect _, validated_size _⟩
    · exact ⟨(by decide : isValidAspectRatio DEFAULTS_aspectRatio = true),
        (by decide : isValidImageSize DEFAULTS_imageSize = true)⟩
  · exact ⟨(by decide : isValidAspectRatio DEFAULTS_aspectRatio = true),
      (by decide : isValidImageSize DEFAULTS_imageSize = true)⟩

/-- C6: template resolution round-trips every in-set aspect-ratio/size
pair unchanged; an out-of-set value (any plain nonempty value outside the
enumerated set) and an absent value resolve to the documented defaults
(`1:1`, `1K`); and for every raw resource text whatsoever the resolved
pair is a member of the enumerated sets — resolution never fails and never
returns an out-of-set value. -/
theorem C6_validated_round_trip :
    (∀ ar ∈ VALID_ASPECT_RATIOS, ∀ sz ∈ VALID_IMAGE_SIZES,
      (parsePromptFile "t" "t.md" (mkHeaderContent ar sz)).aspectRatio = ar
      ∧ (parsePromptFile "t" "t.md" (mkHeaderContent ar sz)).imageSize = sz)
    ∧ (∀ name path content : String,
        isValidAspectRatio (parsePromptFile name path content).aspectRatio = true
        ∧ isValidImageSize (parsePromptFile name path content).imageSize = true)
    ∧ (∀ v : String, v.data ≠ [] →
        (∀ c ∈ v.data, wsJs c = false ∧ c ≠ '"' ∧ c ≠ squote) →
        isValidAspectRatio v = false →
        (parsePromptFile "t" "t.md" (mkAspectContent v)).aspectRatio
          = DEFAULTS_aspectRatio)
    ∧ (∀ v : String, v.data ≠ [] →
        (∀ c ∈ v.data, wsJs c = false ∧ c ≠ '"' ∧ c ≠ squote) →
        isValidImageSize v = false →
        (parsePromptFile "t" "t.md" (mkSizeContent v)).imageSize
          = DEFAULTS_imageSize)
    ∧ ((parsePromptFile "t" "t.md" "No header here.").aspectRatio
          = DEFAULTS_aspectRatio
       ∧ (parsePromptFile "t" "t.md" "No header here.").imageSize
          = DEFAULTS_imageSize
       ∧ (parsePromptFile "t" "t.md" "---\nother_key: zzz\n---\nBody.").aspectRatio
          = DEFAULTS_aspectRatio
       ∧ (parsePromptFile "t" "t.md" "---\nother_key: zzz\n---\nBody.").imageSize
          = DEFAULTS_imageSize) :=
  ⟨by decide, parsePromptFile_invariant,
    parsePromptFile_aspect_out_of_set, parsePromptFile_size_out_of_set,
    by decide, by decide, by decide, by decide⟩

/-- Witness for C6: one in-set pair round-trips, the invariant holds on an
arbitrary concrete resource, and concrete out-of-set values fall back to
the defaults. -/
theorem C6_validated_round_trip_witness :
    ((parsePromptFile "t" "t.md" (mkHeaderContent "16:9" "2K")).aspectRatio = "16:9"
      ∧ (parsePromptFile "t" "t.md" (mkHeaderContent "16:9" "2K")).imageSize = "2K")
    ∧ (isValidAspectRatio
          (parsePromptFile "n" "p" "---\naspect_ratio: bogus\n---\nX").aspectRatio
        = true)
    ∧ (parsePromptFile "t" "t.md" (mkAspectContent "7:5")).aspectRatio
        = DEFAULTS_aspectRatio
    ∧ (parsePromptFile "t" "t.md" (mkSizeContent "8K")).imageSize
        = DEFAULTS_imageSize :=
  ⟨C6_validated_round_trip.1 "16:9" (by decide) "2K" (by decide),
    (C6_validated_round_trip.2.1 "n" "p" "---\naspect_ratio: bogus\n---\nX").1,
    C6_validated_round_trip.2.2.1 "7:5" (by decide) (by decide) (by decide),
    C6_validated_round_trip.2.2.2.1 "8K" (by decide) (by decide) (by decide)⟩

/-- C7 counterexample: template resolution does not trim every returned
body.  For the raw text `" x "` (no header) the returned body is `" x "`
itself, which still has leading and trailing whitespace; and for
`"---\n\n---\nBody"` the (empty-capture) header block is not removed. -/
theorem C7_body_not_always_trimmed :
    (parsePromptFile "t" "t.md" " x ").content = " x "
    ∧ wsJs ' ' = true
    ∧ trimJs (" x ").data ≠ (" x ").data
    ∧ (parsePromptFile "t" "t.md" "---\n\n---\nBody").content
        = "---\n\n---\nBody" := by
  refine ⟨?_, by decide, by decide, ?_⟩ <;> decide

/-- C7 (amended): when the frontmatter matches with a nonempty capture,
the returned body is the content after the match, trimmed (so it has no
leading or trailing whitespace, by idempotence of trimming); when the
frontmatter does not match, or matches with an empty capture, the body is
the raw content unchanged. -/
theorem C7_body_stripped_trimmed_when_header :
    (∀ (name path content : String) (g rest : List Char),
      frontmatterMatch content.data = some (g, rest) → g ≠ [] →
      (parsePromptFile name path content).content = String.mk (trimJs rest)
      ∧ trimJs (parsePromptFile name path content).content.data
          = (parsePromptFile name path content).content.data)
    ∧ (∀ name path content : String,
      frontmatterMatch content.data = none →
      (parsePromptFile name path content).content = content)
    ∧ (∀ (name path content : String) (rest : List Char),
      frontmatterMatch content.data = some ([], rest) →
      (parsePromptFile name path content).content = content) := by
  refine ⟨?_, ?_, ?_⟩
  · intro name path content g rest h hg
    have hcontent : (parsePromptFile name path content).content
        = String.mk (trimJs rest) := by
      unfold parsePromptFile
      rw [h]
      simp [hg]
    refine ⟨hcontent, ?_⟩
    rw [hcontent]
    show trimJs (trimJs rest) = trimJs rest
    exact trimJs_idem rest
  · intro name path content h
    unfold parsePromptFile
    rw [h]
  · intro name path content rest h
    unfold parsePromptFile
    rw [h]
    simp

/-- Witness for the amended C7: a resource with a header yields the
trimmed body after the header; resources without a (nonempty-capture)
header are returned verbatim. -/
theorem C7_body_stripped_trimmed_when_header_witness :
    (parsePromptFile "t" "t.md" "---\nk: v\n---\n  Body  ").content = "Body"
    ∧ (parsePromptFile "t" "t.md" " x ").content = " x "
    ∧ (parsePromptFile "t" "t.md" "---\n\n---\nBody").content
        = "---\n\n---\nBody" :=
  ⟨(C7_body_stripped_trimmed_when_header.1 "t" "t.md" "---\nk: v\n---\n  Body  "
      ("k: v").data ("Body  ").data (by decide) (by decide)).1.trans (by decide),
    C7_body_stripped_trimmed_when_header.2.1 "t" "t.md" " x " (by decide),
    C7_body_stripped_trimmed_when_header.2.2 "t" "t.md" "---\n\n---\nBody"
      ("Body").data (by decide)⟩
